import Mathlib

/-!
Shallow embedding of the conversion front end of this repository
(`src/lib/application.ts`) together with the `DeclarationReflection`
model shipped alongside it, and proofs of the specification claims
about them.

Machine state that the TypeScript code keeps implicitly (the logger, the
list of created programs, whether the converter was invoked) is made
explicit: `Application.convert` returns a `ConvertRun` record describing
the warnings it logged, the diagnostics it reported and the converter
invocation (if any) of that run.
-/

namespace TypedocSpec

/-- Diagnostic codes that are intentionally ignored when compiling
(`IGNORED_DIAGNOSTICS`, application.ts lines 41-77). -/
def IGNORED_DIAGNOSTICS : List Nat :=
  [1208, 1375, 1103, 2306, 2691, 2792, 5009, 5055, 5070, 7016]

/-- A `ts.Program` as far as `Application.convert` observes it: its root
file names and the codes of its pre-emit diagnostics
(`ts.getPreEmitDiagnostics`). -/
structure Prog where
  rootFileNames : List String
  diagnostics : List Nat
deriving Repr, DecidableEq

/-- The primary program built from the user's tsconfig, together with its
resolved project references (`getResolvedProjectReferences`); a `none`
entry in the reference list models a `ref` that is null because of bad
configuration, and each `some` entry stands for the program that
`ts.createProgram(ref.commandLine)` yields for that reference. -/
structure PrimaryProgram extends Prog where
  resolvedProjectReferences : Option (List (Option Prog))
deriving Repr, DecidableEq

/-- The programs `Application.convert` assembles (application.ts lines
256-288): the primary program, and — only when the primary program has
zero root file names (a solution style tsconfig) — one additional
program per non-null resolved project reference, in order. -/
def buildPrograms (p : PrimaryProgram) : List Prog :=
  if p.toProg.rootFileNames.length = 0 then
    p.toProg :: (p.resolvedProjectReferences.getD []).filterMap id
  else
    [p.toProg]

/-- `emitFunc` (application.ts lines 292-297): the pre-emit diagnostics
of one program with every ignore-listed code filtered out. -/
def emitFunc (pr : Prog) : List Nat :=
  pr.diagnostics.filter (fun code => decide (code ∉ IGNORED_DIAGNOSTICS))

/-- The observable outcome of one `Application.convert` call:
`versionWarning` is whether the unsupported-TypeScript warning was
logged, `noCompilerOptionsWarning` whether the empty-compiler-options
warning was logged, `reportedDiagnostics` the diagnostics handed to
`logger.diagnostics` (empty when none were), and `converterCall` is
`some progs` when `converter.convert` was invoked with program list
`progs` (and its project returned), `none` when `convert` returned
`undefined` without invoking the converter. -/
structure ConvertRun where
  versionWarning : Bool
  noCompilerOptionsWarning : Bool
  reportedDiagnostics : List Nat
  converterCall : Option (List Prog)
deriving Repr, DecidableEq

/-- `Application.convert` (application.ts lines 221-308).
`tsVersionMajorMinor` models `ts.versionMajorMinor`,
`supportedVersionMajorMinor` the versions extracted from the package's
peer dependencies, and `compilerOptionsEmpty` whether
`options.getCompilerOptions()` has no keys. -/
def Application.convert (tsVersionMajorMinor : String)
    (supportedVersionMajorMinor : List String)
    (compilerOptionsEmpty : Bool) (p : PrimaryProgram) : ConvertRun :=
  let versionWarning :=
    ! supportedVersionMajorMinor.contains tsVersionMajorMinor
  let programs := buildPrograms p
  let errors := (programs.map emitFunc).flatten
  if errors.length ≠ 0 then
    { versionWarning := versionWarning
      noCompilerOptionsWarning := compilerOptionsEmpty
      reportedDiagnostics := errors
      converterCall := none }
  else
    { versionWarning := versionWarning
      noCompilerOptionsWarning := compilerOptionsEmpty
      reportedDiagnostics := []
      converterCall := some programs }

/-- Claim C1: if any program's pre-emit diagnostics contain a code not on
the ignore-list, `Application.convert` returns `undefined` and never
invokes the converter (`converterCall = none`); conversely, when every
diagnostic code of every program is on the ignore-list, conversion is
not aborted and the converter is invoked with the assembled programs. -/
theorem claim_C1 (v : String) (sup : List String) (oe : Bool)
    (p : PrimaryProgram) :
    ((∃ pr ∈ buildPrograms p, ∃ c ∈ pr.diagnostics,
        c ∉ IGNORED_DIAGNOSTICS) →
      (Application.convert v sup oe p).converterCall = none) ∧
    ((∀ pr ∈ buildPrograms p, ∀ c ∈ pr.diagnostics,
        c ∈ IGNORED_DIAGNOSTICS) →
      (Application.convert v sup oe p).converterCall =
        some (buildPrograms p)) := by
  constructor
  · rintro ⟨pr, hpr, c, hc, hnot⟩
    have hmem : c ∈ ((buildPrograms p).map emitFunc).flatten := by
      rw [List.mem_flatten]
      refine ⟨emitFunc pr, List.mem_map_of_mem emitFunc hpr, ?_⟩
      simp [emitFunc, List.mem_filter, hc, hnot]
    have hne : (((buildPrograms p).map emitFunc).flatten).length ≠ 0 := by
      intro h0
      rw [List.length_eq_zero] at h0
      rw [h0] at hmem
      exact List.not_mem_nil c hmem
    simp only [Application.convert]
    rw [if_pos hne]
  · intro hall
    have hnil : ((buildPrograms p).map emitFunc).flatten = [] := by
      rw [List.flatten_eq_nil_iff]
      intro l hl
      rw [List.mem_map] at hl
      obtain ⟨pr, hpr, rfl⟩ := hl
      rw [emitFunc, List.filter_eq_nil_iff]
      intro c hc
      simp [hall pr hpr c hc]
    simp only [Application.convert]
    rw [if_neg (by rw [hnil]; simp)]

/-- Witness for C1 at concrete inputs: a primary program carrying the
non-ignored diagnostic 2322 aborts conversion, while one carrying only
the ignore-listed 1208 and 7016 lets the converter run. -/
theorem claim_C1_witness :
    (Application.convert "4.2" ["4.2"] false
        ⟨⟨["a.ts"], [2322]⟩, none⟩).converterCall = none ∧
    (Application.convert "4.2" ["4.2"] false
        ⟨⟨["a.ts"], [1208, 7016]⟩, none⟩).converterCall =
      some [⟨["a.ts"], [1208, 7016]⟩] := by
  refine ⟨(claim_C1 "4.2" ["4.2"] false ⟨⟨["a.ts"], [2322]⟩, none⟩).1 ?_,
    ?_⟩
  · exact ⟨⟨["a.ts"], [2322]⟩, by decide, 2322, by decide, by decide⟩
  · have h := (claim_C1 "4.2" ["4.2"] false
      ⟨⟨["a.ts"], [1208, 7016]⟩, none⟩).2 (by decide)
    rw [h]
    rfl

/-- Claim C3: with zero root file names in the primary program (solution
style tsconfig), the assembled program list is the primary program plus
exactly one program per non-null resolved project reference; with at
least one root file, exactly the primary program; and whenever the
converter is invoked it receives exactly this assembled list. -/
theorem claim_C3 (v : String) (sup : List String) (oe : Bool)
    (p : PrimaryProgram) :
    (p.toProg.rootFileNames = [] →
      buildPrograms p =
          p.toProg :: (p.resolvedProjectReferences.getD []).filterMap id ∧
        (buildPrograms p).length =
          1 + ((p.resolvedProjectReferences.getD []).filterMap id).length) ∧
    (p.toProg.rootFileNames ≠ [] → buildPrograms p = [p.toProg]) ∧
    (∀ progs, (Application.convert v sup oe p).converterCall = some progs →
      progs = buildPrograms p) := by
  refine ⟨?_, ?_, ?_⟩
  · intro h
    have hb : buildPrograms p =
        p.toProg :: (p.resolvedProjectReferences.getD []).filterMap id := by
      rw [buildPrograms, if_pos (by rw [h]; rfl)]
    exact ⟨hb, by rw [hb]; simp [Nat.add_comm]⟩
  · intro h
    rw [buildPrograms,
      if_neg (fun hl => h (List.length_eq_zero.mp hl))]
  · intro progs hcall
    simp only [Application.convert] at hcall
    split at hcall
    · exact absurd hcall (by simp)
    · exact (Option.some_inj.mp hcall).symm

/-- Witness for C3 at concrete inputs: a solution-style primary program
with references `[some r₁, none, some r₂]` expands to three programs,
and a primary program with a root file stays alone; the converter call
of a clean run carries exactly the assembled list. -/
theorem claim_C3_witness :
    buildPrograms ⟨⟨[], []⟩,
        some [some ⟨["r1.ts"], []⟩, none, some ⟨["r2.ts"], []⟩]⟩ =
      [⟨[], []⟩, ⟨["r1.ts"], []⟩, ⟨["r2.ts"], []⟩] ∧
    (buildPrograms ⟨⟨[], []⟩,
        some [some ⟨["r1.ts"], []⟩, none, some ⟨["r2.ts"], []⟩]⟩).length =
      3 ∧
    buildPrograms ⟨⟨["main.ts"], []⟩,
        some [some ⟨["r1.ts"], []⟩]⟩ = [⟨["main.ts"], []⟩] := by
  have h1 := (claim_C3 "4.2" ["4.2"] false
    ⟨⟨[], []⟩, some [some ⟨["r1.ts"], []⟩, none, some ⟨["r2.ts"], []⟩]⟩).1
    rfl
  have h2 := (claim_C3 "4.2" ["4.2"] false
    ⟨⟨["main.ts"], []⟩, some [some ⟨["r1.ts"], []⟩]⟩).2.1 (by decide)
  refine ⟨h1.1, by rw [h1.2]; rfl, h2⟩

/-- Claim C9: the unsupported-TypeScript-version warning is logged
exactly when the running version is not among the supported versions,
and the version never influences whether conversion proceeds: the
converter call of `Application.convert` is identical under any two
versions and supported-version lists. -/
theorem claim_C9 (v v' : String) (sup sup' : List String) (oe : Bool)
    (p : PrimaryProgram) :
    ((Application.convert v sup oe p).versionWarning = true ↔
      sup.contains v = false) ∧
    (Application.convert v sup oe p).converterCall =
      (Application.convert v' sup' oe p).converterCall := by
  constructor
  · simp only [Application.convert]
    split <;> simp
  · simp only [Application.convert]
    split <;> rfl

end TypedocSpec

/-! ## The DeclarationReflection model

The repository ships the compiled `DeclarationReflection` prototype
(`getAllSignatures`, `traverse`, `toObject`).  Children observed by the
traversal (type parameters, the type-literal declaration, signatures,
container children) are modelled uniformly as `Reflection` values.
-/

/-- A reflection as observed through the model interface: its unique id,
its name and its kind tag. -/
structure Reflection where
  id : Nat
  name : String
  kind : Nat
deriving Repr, DecidableEq

/-- A resolved type attached to a declaration.  `reflectionType` is the
`ReflectionType` case (an inline type literal carrying its own
declaration reflection); every other variant is opaque to the claims
and collapsed into `otherType`. -/
inductive TypeT where
  | reflectionType (declaration : Reflection)
  | otherType (tag : String)
deriving Repr, DecidableEq

/-- Modelled from the spec: the reduced type description a `Type`
serializes to (`t.toObject()`), a tagged value rather than a live
reference. -/
inductive SerializedType where
  | reflectionDesc (declaration : Reflection)
  | otherDesc (tag : String)
deriving Repr, DecidableEq

/-- Modelled from the spec: `Type.prototype.toObject`, which reduces a
type to its serialized tagged description. -/
def TypeT.toObject : TypeT → SerializedType
  | .reflectionType d => .reflectionDesc d
  | .otherType t => .otherDesc t

/-- The structural role tags handed to traversal callbacks
(`TraverseProperty`). -/
inductive TraverseProperty where
  | Children
  | Parameters
  | TypeLiteral
  | TypeParameter
  | Signatures
  | IndexSignature
  | GetSignature
  | SetSignature
deriving Repr, DecidableEq

/-- A `DeclarationReflection`: the base reflection data (`id`, `name`,
`kind`), the container children, and the declaration-specific optional
fields used by `getAllSignatures`, `traverse` and `toObject`.  An
`Option` field is `none` when the JavaScript property is `undefined`. -/
structure DeclarationReflection where
  id : Nat
  name : String
  kind : Nat
  typeParameters : Option (List Reflection)
  type : Option TypeT
  signatures : Option (List Reflection)
  indexSignature : Option Reflection
  getSignature : Option Reflection
  setSignature : Option Reflection
  children : Option (List Reflection)
  defaultValue : Option String
  overwrites : Option TypeT
  inheritedFrom : Option TypeT
  implementationOf : Option TypeT
  extendedTypes : Option (List TypeT)
  extendedBy : Option (List TypeT)
  implementedTypes : Option (List TypeT)
  implementedBy : Option (List TypeT)
deriving Repr, DecidableEq

/-- `DeclarationReflection.prototype.getAllSignatures` (source lines
442-453): starts from an empty result, concatenates `signatures` when
set, then pushes the index, get and set signatures when set. -/
def DeclarationReflection.getAllSignatures
    (d : DeclarationReflection) : List Reflection :=
  let result : List Reflection := []
  let result := match d.signatures with
    | some sigs => result ++ sigs
    | none => result
  let result := match d.indexSignature with
    | some s => result ++ [s]
    | none => result
  let result := match d.getSignature with
    | some s => result ++ [s]
    | none => result
  let result := match d.setSignature with
    | some s => result ++ [s]
    | none => result
  result

/-- Modelled from the spec: `ContainerReflection.prototype.traverse`
(the `_super.prototype.traverse` call; the ContainerReflection module is
not part of this excerpt) visits each ordinary child with the
`Children` role, in the order of the child collection. -/
def ContainerReflection.traverse {α : Type} (d : DeclarationReflection)
    (callback : Reflection → TraverseProperty → α) : List α :=
  match d.children with
  | some cs => cs.map (fun child => callback child TraverseProperty.Children)
  | none => []

/-- `DeclarationReflection.prototype.traverse` (source lines 454-474),
instrumented to return the results of the callback invocations in the
order the code makes them: type parameters, then the type literal's
declaration when `type` is a `ReflectionType`, then the call
signatures, then the index, get and set signatures, then the container
traversal. -/
def DeclarationReflection.traverse {α : Type} (d : DeclarationReflection)
    (callback : Reflection → TraverseProperty → α) : List α :=
  (match d.typeParameters with
    | some tps =>
        tps.map (fun parameter => callback parameter TraverseProperty.TypeParameter)
    | none => [])
  ++ (match d.type with
    | some (TypeT.reflectionType decl) =>
        [callback decl TraverseProperty.TypeLiteral]
    | _ => [])
  ++ (match d.signatures with
    | some sigs =>
        sigs.map (fun signature => callback signature TraverseProperty.Signatures)
    | none => [])
  ++ (match d.indexSignature with
    | some s => [callback s TraverseProperty.IndexSignature]
    | none => [])
  ++ (match d.getSignature with
    | some s => [callback s TraverseProperty.GetSignature]
    | none => [])
  ++ (match d.setSignature with
    | some s => [callback s TraverseProperty.SetSignature]
    | none => [])
  ++ ContainerReflection.traverse d callback

/-- The visit sequence claim C6 prescribes, written from the claim's
words: each structural child paired with its role tag, type parameters
first, then the inline type-literal declaration, then call signatures,
then index/get/set signatures, then the ordinary container children. -/
def traverseRoleVisits
    (d : DeclarationReflection) : List (Reflection × TraverseProperty) :=
  (d.typeParameters.getD []).map (fun p => (p, TraverseProperty.TypeParameter))
  ++ (match d.type with
      | some (TypeT.reflectionType decl) =>
          [(decl, TraverseProperty.TypeLiteral)]
      | _ => [])
  ++ (d.signatures.getD []).map (fun s => (s, TraverseProperty.Signatures))
  ++ d.indexSignature.toList.map (fun s => (s, TraverseProperty.IndexSignature))
  ++ d.getSignature.toList.map (fun s => (s, TraverseProperty.GetSignature))
  ++ d.setSignature.toList.map (fun s => (s, TraverseProperty.SetSignature))
  ++ (d.children.getD []).map (fun c => (c, TraverseProperty.Children))

/-- Claim C10: `getAllSignatures` is exactly the concatenation of the
call signatures in stored order, then the index signature, then the get
signature, then the set signature, each present signature appearing
once and absent ones omitted (and, the model being a pure function, the
reflection is not mutated). -/
theorem claim_C10 (d : DeclarationReflection) :
    d.getAllSignatures =
      d.signatures.getD [] ++ d.indexSignature.toList ++
        d.getSignature.toList ++ d.setSignature.toList := by
  simp only [DeclarationReflection.getAllSignatures]
  cases d.signatures <;> cases d.indexSignature <;>
    cases d.getSignature <;> cases d.setSignature <;> simp

/-- Claim C6: `traverse` invokes the callback exactly on the visit
sequence `traverseRoleVisits` — once per structural child with its role
tag, type parameters first, then the type-literal declaration, then
call signatures, then index/get/set signatures, then the container
children — and in that order. -/
theorem claim_C6 {α : Type} (d : DeclarationReflection)
    (callback : Reflection → TraverseProperty → α) :
    d.traverse callback =
      (traverseRoleVisits d).map (fun v => callback v.1 v.2) := by
  simp only [DeclarationReflection.traverse, ContainerReflection.traverse,
    traverseRoleVisits, List.map_append]
  cases d.typeParameters <;> cases d.signatures <;>
    cases d.indexSignature <;> cases d.getSignature <;>
    cases d.setSignature <;> cases d.children <;>
    rcases d.type with _ | decl | t <;> simp [Function.comp_def]

/-! ## Serialization of a DeclarationReflection (toObject) -/

/-- Modelled from the spec: the record produced by the base-class
`toObject` that `DeclarationReflection.prototype.toObject` starts from
(`_super.prototype.toObject.call(this)`; the base Reflection and
ContainerReflection modules are not part of this excerpt) — the always
present keys `id`, `name`, `kind`. -/
structure BaseObj where
  id : Nat
  name : String
  kind : Nat
deriving Repr, DecidableEq

/-- The serialized record of a `DeclarationReflection`.  A field is
`some v` when the key is present in the record with value `v` and
`none` when the key is absent; the code never writes `null`. -/
structure DeclObj where
  base : BaseObj
  type : Option SerializedType
  defaultValue : Option String
  overwrites : Option SerializedType
  inheritedFrom : Option SerializedType
  implementationOf : Option SerializedType
  extendedTypes : Option (List SerializedType)
  extendedBy : Option (List SerializedType)
  implementedTypes : Option (List SerializedType)
  implementedBy : Option (List SerializedType)
deriving Repr, DecidableEq

/-- `DeclarationReflection.prototype.toObject` (source lines 475-505).
Each guard `if (this.f)` tests JavaScript truthiness: an unset
(`undefined`) property is falsy, so the key is omitted; the empty
string is falsy, so an empty `defaultValue` is omitted; but a set array
is truthy even when empty, so a present-but-empty list field is still
written to the record. -/
def DeclarationReflection.toObject (d : DeclarationReflection) : DeclObj :=
  { base := ⟨d.id, d.name, d.kind⟩
    type := match d.type with
      | some t => some t.toObject
      | none => none
    defaultValue := match d.defaultValue with
      | some s => if s = "" then none else some s
      | none => none
    overwrites := match d.overwrites with
      | some t => some t.toObject
      | none => none
    inheritedFrom := match d.inheritedFrom with
      | some t => some t.toObject
      | none => none
    implementationOf := match d.implementationOf with
      | some t => some t.toObject
      | none => none
    extendedTypes := match d.extendedTypes with
      | some ts => some (ts.map TypeT.toObject)
      | none => none
    extendedBy := match d.extendedBy with
      | some ts => some (ts.map TypeT.toObject)
      | none => none
    implementedTypes := match d.implementedTypes with
      | some ts => some (ts.map TypeT.toObject)
      | none => none
    implementedBy := match d.implementedBy with
      | some ts => some (ts.map TypeT.toObject)
      | none => none }

/-- Counterexample to claim C2: it is not true that an empty collection
is never emitted — a declaration whose `extendedTypes` property is a
present-but-empty array serializes to a record that contains the
`extendedTypes` key with an empty collection as its value. -/
theorem claim_C2_cex :
    ¬ (∀ d : DeclarationReflection,
        (DeclarationReflection.toObject d).extendedTypes ≠ some []) := by
  intro h
  exact h
    { id := 1, name := "X", kind := 128, typeParameters := none,
      type := none, signatures := none, indexSignature := none,
      getSignature := none, setSignature := none, children := none,
      defaultValue := none, overwrites := none, inheritedFrom := none,
      implementationOf := none, extendedTypes := some [],
      extendedBy := none, implementedTypes := none,
      implementedBy := none }
    rfl

/-- Claim C2 as amended: in the serialized record of a declaration
reflection each optional field is present exactly when the property is
set on the reflection — for `defaultValue`, set and not the empty
string — and an absent property is omitted from the record rather than
emitted as `null`; presence follows JavaScript truthiness, so a
present-but-empty array field is still emitted (as an empty
collection). -/
theorem claim_C2_amended (d : DeclarationReflection) :
    ((DeclarationReflection.toObject d).type ≠ none ↔ d.type ≠ none) ∧
    ((DeclarationReflection.toObject d).defaultValue ≠ none ↔
      (∃ s, d.defaultValue = some s ∧ s ≠ "")) ∧
    ((DeclarationReflection.toObject d).overwrites ≠ none ↔
      d.overwrites ≠ none) ∧
    ((DeclarationReflection.toObject d).inheritedFrom ≠ none ↔
      d.inheritedFrom ≠ none) ∧
    ((DeclarationReflection.toObject d).implementationOf ≠ none ↔
      d.implementationOf ≠ none) ∧
    ((DeclarationReflection.toObject d).extendedTypes ≠ none ↔
      d.extendedTypes ≠ none) ∧
    ((DeclarationReflection.toObject d).extendedBy ≠ none ↔
      d.extendedBy ≠ none) ∧
    ((DeclarationReflection.toObject d).implementedTypes ≠ none ↔
      d.implementedTypes ≠ none) ∧
    ((DeclarationReflection.toObject d).implementedBy ≠ none ↔
      d.implementedBy ≠ none) := by
  refine ⟨?_, ?_, ?_, ?_, ?_, ?_, ?_, ?_, ?_⟩ <;>
    simp only [DeclarationReflection.toObject]
  · cases d.type <;> simp
  · rcases d.defaultValue with _ | s
    · simp
    · by_cases hs : s = "" <;> simp [hs]
  · cases d.overwrites <;> simp
  · cases d.inheritedFrom <;> simp
  · cases d.implementationOf <;> simp
  · cases d.extendedTypes <;> simp
  · cases d.extendedBy <;> simp
  · cases d.implementedTypes <;> simp
  · cases d.implementedBy <;> simp

/-! ## generateJson and the serializer lifecycle hooks -/

/-- Character-level model of the host language's
`String.prototype.startsWith`. -/
def strStartsWith (s p : String) : Bool := p.data.isPrefixOf s.data

/-- Character-level model of the host language's
`String.prototype.endsWith`. -/
def strEndsWith (s p : String) : Bool := p.data.isSuffixOf s.data

/-- Modelled from the spec: `Path.resolve` from the path module —
resolution of the target path against the working directory; an
absolute path is unchanged. -/
def Path.resolve (cwd p : String) : String :=
  if strStartsWith p "/" then p else cwd ++ "/" ++ p

/-- Modelled from the spec: `Path.dirname` from the path module — the
part of the path before its last separator. -/
def Path.dirname (p : String) : String :=
  ⟨(((p.data.reverse.dropWhile (fun c => c != '/')).drop 1).reverse)⟩

/-- Modelled from the spec: `Path.basename` from the path module — the
component after the last separator. -/
def Path.basename (p : String) : String :=
  ⟨(p.data.reverse.takeWhile (fun c => c != '/')).reverse⟩

/-- The metadata record handed to the serializer hooks
(`eventData` in `generateJson`): output directory and output file. -/
structure SerializeEventData where
  outputDirectory : String
  outputFile : String
deriving Repr, DecidableEq

/-- An observable event of one serializer export pass. -/
inductive SerializeEvent where
  | beginEvent (d : SerializeEventData)
  | exportPass
  | endEvent (d : SerializeEventData)
deriving Repr, DecidableEq

/-- The caller-supplied hook payloads (`{ begin: …, end: … }`). -/
structure SerializerHooks where
  beginData : SerializeEventData
  endData : SerializeEventData
deriving Repr, DecidableEq

/-- Modelled from the spec: `Serializer.projectToObject` (the Serializer
module is not part of this excerpt) performs a single export pass over
the project, firing the `begin` hook once before it and the `end` hook
once after it, passing the caller-supplied metadata through unchanged;
the hooks carry no conversion logic.  Returns the event trace and the
serialized record. -/
def Serializer.projectToObject (project : DeclarationReflection)
    (hooks : SerializerHooks) : List SerializeEvent × DeclObj :=
  ([SerializeEvent.beginEvent hooks.beginData,
    SerializeEvent.exportPass,
    SerializeEvent.endEvent hooks.endData],
   project.toObject)

/-- `Application.generateJson` (application.ts lines 334-349): resolves
the target path, derives the event metadata from its directory and file
name, and serializes the project handing that same record to both the
begin and the end hook.  Returns the serializer's event trace and the
record written to disk. -/
def Application.generateJson (cwd : String)
    (project : DeclarationReflection) (out : String) :
    List SerializeEvent × DeclObj :=
  let res := Path.resolve cwd out
  let eventData : SerializeEventData :=
    ⟨Path.dirname res, Path.basename res⟩
  Serializer.projectToObject project ⟨eventData, eventData⟩

/-- Claim C7: in every `generateJson` call the serializer's begin and
end hooks each fire exactly once, around the single export pass, and
both receive the same metadata record holding the directory and file
name derived from the resolved target path. -/
theorem claim_C7 (cwd : String) (project : DeclarationReflection)
    (out : String) :
    (Application.generateJson cwd project out).1 =
      [SerializeEvent.beginEvent
          ⟨Path.dirname (Path.resolve cwd out),
            Path.basename (Path.resolve cwd out)⟩,
        SerializeEvent.exportPass,
        SerializeEvent.endEvent
          ⟨Path.dirname (Path.resolve cwd out),
            Path.basename (Path.resolve cwd out)⟩] ∧
    ((Application.generateJson cwd project out).1.countP
        (fun e => match e with
          | SerializeEvent.beginEvent _ => true
          | _ => false) = 1) ∧
    ((Application.generateJson cwd project out).1.countP
        (fun e => match e with
          | SerializeEvent.endEvent _ => true
          | _ => false) = 1) := by
  refine ⟨rfl, ?_, ?_⟩ <;> rfl

/-! ## expandInputFiles -/

mutual

/-- One node of the file-system tree as `expandInputFiles` observes it:
a regular file, a directory with its entries, or a path whose
`statSync` throws (no permission or a dangling symbolic link). -/
inductive FSNode where
  | file
  | dir (entries : FSEntries)
  | inaccessible

/-- The named entries of a directory, in `readdirSync` order. -/
inductive FSEntries where
  | nil
  | cons (name : String) (node : FSNode) (rest : FSEntries)

end

/-- Modelled from the spec: `normalizePath` from the utils module,
which rewrites backslashes to forward slashes. -/
def normalizePath (s : String) : String :=
  ⟨s.data.map (fun c => if c = '\\' then '/' else c)⟩

/-- The `supportedFileRegex` test (application.ts lines 370-374): the
extensions `.ts .tsx .js .jsx` when `allowJs` or `checkJs` is set,
otherwise `.ts .tsx`. -/
def supportedFile (allowJs : Bool) (f : String) : Bool :=
  strEndsWith f ".ts" || strEndsWith f ".tsx" ||
    (allowJs && (strEndsWith f ".js" || strEndsWith f ".jsx"))

mutual

/-- The inner `add` of `expandInputFiles` (application.ts lines
375-399): an inaccessible path is silently skipped; a directory path is
given a trailing slash; a non-entry-point path matching an exclude
pattern is dropped; a directory's entries are recursed into as
non-entry-points; a file with a supported extension is collected. -/
def addNode (excl : String → Bool) (allowJs : Bool) :
    FSNode → String → Bool → List String
  | FSNode.inaccessible, _, _ => []
  | FSNode.file, path, entryPoint =>
      if !entryPoint && excl (normalizePath path) then []
      else if supportedFile allowJs path then [normalizePath path]
      else []
  | FSNode.dir entries, path, entryPoint =>
      let dirPath := if strEndsWith path "/" then path else path ++ "/"
      if !entryPoint && excl (normalizePath dirPath) then []
      else addEntries excl allowJs entries dirPath

/-- The `readdirSync(file).forEach` recursion of `add`: each directory
entry is visited in order with `entryPoint = false`, its path joined
onto the slash-terminated directory path. -/
def addEntries (excl : String → Bool) (allowJs : Bool) :
    FSEntries → String → List String
  | FSEntries.nil, _ => []
  | FSEntries.cons name node rest, dirPath =>
      addNode excl allowJs node (dirPath ++ name) false ++
        addEntries excl allowJs rest dirPath

end

/-- The file-system roots visible to `expandInputFiles`: the node found
at each resolved entry-point path.  A path not in the list is one for
which `existsSync` is false. -/
abbrev FileSystem := List (String × FSNode)

/-- `FS.existsSync`/`statSync` at a resolved entry-point path. -/
def FileSystem.lookupRoot (fs : FileSystem) (p : String) : Option FSNode :=
  match fs.find? (fun e => e.1 == p) with
  | some e => some e.2
  | none => none

/-- The warning `expandInputFiles` logs for a missing entry point
(application.ts lines 403-408). -/
def missingEntryPointWarning (file : String) : String :=
  "Provided entry point " ++ file ++
    " does not exist and will not be included in the docs."

/-- One iteration of the `inputFiles.forEach` loop of
`expandInputFiles` (application.ts lines 401-411): the warnings logged
and the files contributed for one input path. -/
def processInput (fs : FileSystem) (excl : String → Bool)
    (allowJs : Bool) (cwd : String) (file : String) :
    List String × List String :=
  let resolved := Path.resolve cwd file
  match fs.lookupRoot resolved with
  | none => ([missingEntryPointWarning file], [])
  | some node => ([], addNode excl allowJs node resolved true)

/-- `Application.expandInputFiles` (application.ts lines 361-414),
returning the warnings logged and the expanded file list, both in
traversal order. -/
def expandInputFiles (fs : FileSystem) (excl : String → Bool)
    (allowJs : Bool) (cwd : String) :
    List String → List String × List String
  | [] => ([], [])
  | f :: rest =>
      let r := processInput fs excl allowJs cwd f
      let rr := expandInputFiles fs excl allowJs cwd rest
      (r.1 ++ rr.1, r.2 ++ rr.2)

/-- Claim C4: an entry point whose resolved path does not exist
produces exactly one warning and contributes no files, and the
remaining entry points are processed exactly as they would be on their
own; `expandInputFiles` (a total function in this embedding) raises no
error for a missing entry point. -/
theorem claim_C4 (fs : FileSystem) (excl : String → Bool)
    (allowJs : Bool) (cwd : String) (xs ys : List String) (m : String)
    (hm : fs.lookupRoot (Path.resolve cwd m) = none) :
    expandInputFiles fs excl allowJs cwd (xs ++ m :: ys) =
      ((expandInputFiles fs excl allowJs cwd xs).1 ++
          missingEntryPointWarning m ::
            (expandInputFiles fs excl allowJs cwd ys).1,
        (expandInputFiles fs excl allowJs cwd xs).2 ++
          (expandInputFiles fs excl allowJs cwd ys).2) := by
  induction xs with
  | nil => simp [expandInputFiles, processInput, hm]
  | cons a as ih =>
      simp only [List.cons_append, expandInputFiles, List.append_eq]
      rw [ih]
      simp [List.append_assoc]

/-- Witness for C4 at a concrete file system: with one existing entry
point `a.ts` and one missing entry point `missing.ts`, expansion logs
exactly the one missing-entry-point warning and lists only `a.ts`. -/
theorem claim_C4_witness :
    expandInputFiles [("/root/a.ts", FSNode.file)] (fun _ => false) false
        "/root" ["a.ts", "missing.ts"] =
      ([missingEntryPointWarning "missing.ts"], ["/root/a.ts"]) := by
  rw [show ["a.ts", "missing.ts"] =
        ["a.ts"] ++ "missing.ts" :: ([] : List String) from rfl,
    claim_C4 [("/root/a.ts", FSNode.file)] (fun _ => false) false "/root"
      ["a.ts"] [] "missing.ts" rfl]
  rfl

/-- Claim C8: the exclude patterns are never applied to a path supplied
directly as an entry point — an entry-point file with a supported
extension is collected and an entry-point directory is recursed into,
whatever the exclude predicate says about them — while a path reached
by recursion into a directory (`entryPoint = false`) is dropped as soon
as the exclude predicate matches it. -/
theorem claim_C8 (excl : String → Bool) (allowJs : Bool) (path : String)
    (entries : FSEntries) :
    (supportedFile allowJs path = true →
      addNode excl allowJs FSNode.file path true = [normalizePath path]) ∧
    (addNode excl allowJs (FSNode.dir entries) path true =
      addEntries excl allowJs entries
        (if strEndsWith path "/" then path else path ++ "/")) ∧
    (excl (normalizePath path) = true →
      addNode excl allowJs FSNode.file path false = []) ∧
    (excl (normalizePath
        (if strEndsWith path "/" then path else path ++ "/")) = true →
      addNode excl allowJs (FSNode.dir entries) path false = []) := by
  refine ⟨?_, ?_, ?_, ?_⟩
  · intro h
    simp [addNode, h]
  · simp [addNode]
  · intro h
    simp [addNode, h]
  · intro h
    simp [addNode, h]

/-- Witness for C8 at concrete inputs: with an exclude predicate that
matches both `/r/x.ts` and the directory path `/r/d/`, the
entry-point file is still collected and the entry-point directory is
still recursed, while the same file reached as a directory entry is
dropped. -/
theorem claim_C8_witness :
    addNode (fun q => q == "/r/x.ts" || q == "/r/d/") false
        FSNode.file "/r/x.ts" true = ["/r/x.ts"] ∧
    addNode (fun q => q == "/r/x.ts" || q == "/r/d/") false
        (FSNode.dir (FSEntries.cons "x.ts" FSNode.file FSEntries.nil))
        "/r/d" true =
      addEntries (fun q => q == "/r/x.ts" || q == "/r/d/") false
        (FSEntries.cons "x.ts" FSNode.file FSEntries.nil) "/r/d/" ∧
    addNode (fun q => q == "/r/x.ts" || q == "/r/d/") false
        FSNode.file "/r/x.ts" false = [] := by
  refine ⟨?_, ?_, ?_⟩
  · exact (claim_C8 (fun q => q == "/r/x.ts" || q == "/r/d/") false
      "/r/x.ts" FSEntries.nil).1 rfl
  · exact (claim_C8 (fun q => q == "/r/x.ts" || q == "/r/d/") false
      "/r/d" (FSEntries.cons "x.ts" FSNode.file FSEntries.nil)).2.1
  · exact (claim_C8 (fun q => q == "/r/x.ts" || q == "/r/d/") false
      "/r/x.ts" FSEntries.nil).2.2.1 rfl

/-! ## Round-trip of the serialized form -/

mutual

/-- A reflection tree as the round-trip claim observes it: `id`, `name`
and `kind` of each reflection plus the ordered children. -/
inductive ReflTree where
  | node (id : Nat) (name : String) (kind : Nat) (children : ReflForest)

/-- The ordered child list of a reflection. -/
inductive ReflForest where
  | nil
  | cons (child : ReflTree) (rest : ReflForest)

end

mutual

/-- A serialized reflection record: the always-present `id`, `name` and
`kind` keys and the `children` key, absent (`none`) when omitted. -/
inductive SerializedRefl where
  | node (id : Nat) (name : String) (kind : Nat)
      (children : Option SerializedForest)

/-- A serialized `children` array, in tree order. -/
inductive SerializedForest where
  | nil
  | cons (child : SerializedRefl) (rest : SerializedForest)

end

mutual

/-- Modelled from the spec: serialization of the reflection tree (the
base `Reflection`/`ContainerReflection` `toObject`, not part of this
excerpt): `id`, `name` and `kind` are copied, the children are
serialized in order, and the `children` key is omitted when the child
collection is empty — fields present only when non-empty. -/
def ReflTree.toObject : ReflTree → SerializedRefl
  | ReflTree.node i n k ReflForest.nil => SerializedRefl.node i n k none
  | ReflTree.node i n k (ReflForest.cons c rest) =>
      SerializedRefl.node i n k
        (some (ReflForest.toObjects (ReflForest.cons c rest)))

/-- Serialization of a child list, preserving order. -/
def ReflForest.toObjects : ReflForest → SerializedForest
  | ReflForest.nil => SerializedForest.nil
  | ReflForest.cons c rest =>
      SerializedForest.cons c.toObject (ReflForest.toObjects rest)

end

mutual

/-- Modelled from the spec: reloading a serialized reflection record
into an in-memory shape — `id`, `name` and `kind` are read back and an
absent `children` key is read as an empty child collection. -/
def SerializedRefl.load : SerializedRefl → ReflTree
  | SerializedRefl.node i n k none => ReflTree.node i n k ReflForest.nil
  | SerializedRefl.node i n k (some cs) => ReflTree.node i n k cs.loadAll

/-- Reloading a serialized `children` array, preserving order. -/
def SerializedForest.loadAll : SerializedForest → ReflForest
  | SerializedForest.nil => ReflForest.nil
  | SerializedForest.cons c rest =>
      ReflForest.cons c.load rest.loadAll

end

mutual

/-- Round-trip on a single reflection tree (helper for claim C5). -/
theorem toObject_load_tree : ∀ r : ReflTree, (ReflTree.toObject r).load = r
  | ReflTree.node i n k ReflForest.nil => by
      simp [ReflTree.toObject, SerializedRefl.load]
  | ReflTree.node i n k (ReflForest.cons c rest) => by
      simp [ReflTree.toObject, SerializedRefl.load]
      exact toObject_load_forest (ReflForest.cons c rest)

/-- Round-trip on a child list (helper for claim C5). -/
theorem toObject_load_forest :
    ∀ f : ReflForest, (ReflForest.toObjects f).loadAll = f
  | ReflForest.nil => rfl
  | ReflForest.cons c rest => by
      simp [ReflForest.toObjects, SerializedForest.loadAll]
      exact ⟨toObject_load_tree c, toObject_load_forest rest⟩

end

/-- Claim C5: exporting a reflection tree to the serialized form and
reloading that form yields the original tree back — in particular `id`,
`name` and `kind` of every reflection and the ordering of every child
list are preserved. -/
theorem claim_C5 (r : ReflTree) : (ReflTree.toObject r).load = r :=
  toObject_load_tree r
